import Mathlib

/-!
Verification development for the RuPay agent RAG core
(`core/rag_config.py`, `core/offline_ingestion.py`, `core/online_retrieval.py`,
`core/rag_generation.py`).

The Python code is shallowly embedded: pure string processing becomes Lean
functions on `String`/`List Char`, the tiktoken tokenizer and the sentence
embedding model are abstracted as function parameters (the repository only
configures them), FAISS search output is passed in as an explicit list of
(label, distance) pairs, float scores become rationals, Python list indexing
(including the negative-index wrap and the IndexError case) is modelled by
`pyGet`, and a raised exception is modelled by an `Option` result of `none`.
The `while` loop of `chunk_by_tokens` is modelled with an explicit iteration
bound (`fuel`); exhausting the bound yields `none`, and the bound chosen by
`chunk_by_tokens` is proven sufficient whenever the stride is positive.
-/

namespace RupayRag

/-- Whitespace characters recognised by the model of Python's `\s` /
`str.strip()` / `str.split()` (ASCII whitespace set). -/
def pySpace (c : Char) : Bool :=
  c == ' ' || c == '\t' || c == '\n' || c == '\r' || c == '\x0b' || c == '\x0c'

/-- Model of `re.sub(r'\s+', ' ', s)`: every maximal run of whitespace is
replaced by a single space.  The flag records whether the previous character
belonged to a whitespace run that has already emitted its space. -/
def collapseAux : Bool → List Char → List Char
  | _, [] => []
  | prevSp, c :: cs =>
    if pySpace c then
      if prevSp then collapseAux true cs else ' ' :: collapseAux true cs
    else c :: collapseAux false cs

/-- Model of Python's `str.strip()` on a character list. -/
def pyStripList (l : List Char) : List Char :=
  ((l.dropWhile pySpace).reverse.dropWhile pySpace).reverse

/-- Model of Python's `str.strip()`. -/
def pyStrip (s : String) : String :=
  String.mk (pyStripList s.toList)

/-- Embeds `OnlineRetrieval.preprocess_question`
(`core/online_retrieval.py`, lines 86-103): collapse whitespace runs, strip,
and append a question mark when the result is nonempty and does not already
end with one. -/
def preprocess_question (question : String) : String :=
  let q := pyStripList (collapseAux false question.toList)
  if q = [] then String.mk q
  else if q.getLast? = some '?' then String.mk q
  else String.mk (q ++ ['?'])

/-- Model of Python's `\w` character class (word characters). -/
def pyWordChar (c : Char) : Bool := c.isAlphanum || c == '_'

/-- Characters kept by `clean_text`'s second regex
`re.sub(r'[^\w\s.,!?;:()\-\'\"]+', '', text)`. -/
def keepChar (c : Char) : Bool :=
  pyWordChar c || pySpace c ||
    ([ '.', ',', '!', '?', ';', ':', '(', ')', '-', '\x27', '\x22'].contains c)

/-- Embeds `OfflineIngestion.clean_text` (`core/offline_ingestion.py`,
lines 103-122): collapse whitespace, drop special characters, strip. -/
def clean_text (text : String) : String :=
  String.mk (pyStripList ((collapseAux false text.toList).filter keepChar))

/-! Configuration constants from `core/rag_config.py`. -/

/-- `DEFAULT_CHUNK_SIZE` (`core/rag_config.py`, line 20). -/
def DEFAULT_CHUNK_SIZE : Nat := 600

/-- `CHUNK_OVERLAP_PERCENTAGE` (`core/rag_config.py`, line 21). -/
def CHUNK_OVERLAP_PERCENTAGE : Nat := 15

/-- `CHUNK_OVERLAP = int(DEFAULT_CHUNK_SIZE * CHUNK_OVERLAP_PERCENTAGE / 100)`
(`core/rag_config.py`, line 22); evaluates to 90. -/
def CHUNK_OVERLAP : Nat := DEFAULT_CHUNK_SIZE * CHUNK_OVERLAP_PERCENTAGE / 100

/-- `MIN_CHUNK_LENGTH` (`core/rag_config.py`, line 109): minimum CHARACTERS
for a valid chunk. -/
def MIN_CHUNK_LENGTH : Nat := 50

/-- `INITIAL_RETRIEVAL_K` (`core/rag_config.py`, line 43). -/
def INITIAL_RETRIEVAL_K : Nat := 20

/-- `RERANK_TOP_K` (`core/rag_config.py`, line 46). -/
def RERANK_TOP_K : Nat := 5

/-- `RERANK_MIN_SCORE` (`core/rag_config.py`, line 47). -/
def RERANK_MIN_SCORE : ℚ := 3/10

/-- `MAX_CONTEXT_TOKENS` (`core/rag_config.py`, line 57). -/
def MAX_CONTEXT_TOKENS : Nat := 3000

/-- `NO_CONTEXT_RESPONSE` (`core/rag_config.py`, line 95). -/
def NO_CONTEXT_RESPONSE : String :=
  "I don\x27t have enough information to answer this question."

/-- Abstraction of the tiktoken encoder configured by `TIKTOKEN_ENCODING`:
the repository only calls `encode` and `decode`. -/
structure Tokenizer where
  encode : String → List Nat
  decode : List Nat → String

/-- One entry of `chunks_metadata`, as built in
`OfflineIngestion.ingest_document` (`core/offline_ingestion.py`,
lines 228-236). -/
structure ChunkMeta where
  document_id : String
  chunk_index : Nat
  chunk_text : String
  token_count : Nat
  char_count : Nat
deriving DecidableEq

/-- One scored-chunk dictionary built in
`OnlineRetrieval.rerank_candidates` (`core/online_retrieval.py`,
lines 199-205). -/
structure ScoredChunk where
  chunk_index : Int
  metadata : ChunkMeta
  score : ℚ
  vector_similarity : ℚ
  keyword_score : ℚ
deriving DecidableEq

/-- The dictionary returned by `OnlineRetrieval.retrieve`, restricted to the
fields the claims mention. -/
structure RetrieveResult where
  context : String
  num_chunks : Nat
deriving DecidableEq

/-- The dictionary returned by `RAGGeneration.generate_answer`. -/
structure GenResult where
  answer : String
  has_context : Bool
deriving DecidableEq

/-- The mutable state of `OfflineIngestion`: the FAISS index (a list of
embedding vectors of abstract type `E`, in insertion order, as maintained by
`faiss.IndexFlatL2.add`) and `chunks_metadata`. -/
structure IngestState (E : Type) where
  index : List E
  chunks_metadata : List ChunkMeta
deriving DecidableEq

/-- The body of the `while start < len(tokens)` loop of
`OfflineIngestion.chunk_by_tokens` (`core/offline_ingestion.py`,
lines 144-162), with an explicit iteration bound.  `none` means the bound was
exhausted with the loop still running (in particular, a non-terminating loop
yields `none` for every bound). -/
def chunkLoop (decode : List Nat → String) (tokens : List Nat)
    (chunk_size overlap : Nat) : Nat → Nat → Option (List String)
  | 0, start => if start < tokens.length then none else some []
  | fuel+1, start =>
    if start < tokens.length then
      let chunk_text := decode ((tokens.drop start).take chunk_size)
      match chunkLoop decode tokens chunk_size overlap fuel
          (start + (chunk_size - overlap)) with
      | none => none
      | some rest =>
        some (if MIN_CHUNK_LENGTH ≤ chunk_text.length
              then chunk_text :: rest else rest)
    else some []

/-- Embeds `OfflineIngestion.chunk_by_tokens` (`core/offline_ingestion.py`,
lines 124-162).  The iteration bound `tokens.length + 1` is sufficient for
every positive stride (proved below); with a non-positive stride the Python
loop never terminates and this model returns `none`. -/
def chunk_by_tokens (tok : Tokenizer) (text : String)
    (chunk_size overlap : Nat) : Option (List String) :=
  let tokens := tok.encode text
  chunkLoop tok.decode tokens chunk_size overlap (tokens.length + 1) 0

/-- Model of Python's `s.lower().split()`: lowercase, then split on
whitespace runs, discarding empty pieces. -/
def pyWords (s : String) : List String :=
  (((s.toList.map Char.toLower).splitOnP pySpace).filter
    (fun w => w ≠ [])).map String.mk

/-- The stop-word set of `OnlineRetrieval.calculate_keyword_overlap`
(`core/online_retrieval.py`, line 151). -/
def stop_words : Finset String :=
  {"the", "a", "an", "is", "are", "was", "were", "what", "how", "why",
   "when", "where"}

/-- The stop-word-filtered word set of a string
(`core/online_retrieval.py`, lines 146-153). -/
def wordSet (s : String) : Finset String :=
  (pyWords s).toFinset \ stop_words

/-- Embeds `OnlineRetrieval.calculate_keyword_overlap`
(`core/online_retrieval.py`, lines 135-162): Jaccard similarity of the two
stop-word-filtered word sets, with 0 when either set is empty. -/
def calculate_keyword_overlap (question chunk_text : String) : ℚ :=
  if wordSet question = ∅ ∨ wordSet chunk_text = ∅ then 0
  else if 0 < (wordSet question ∪ wordSet chunk_text).card then
    ((wordSet question ∩ wordSet chunk_text).card : ℚ) /
      ((wordSet question ∪ wordSet chunk_text).card : ℚ)
  else 0

/-- Python list indexing `l[i]` for an `int` index: a negative index wraps
once from the end; an out-of-range index raises IndexError (modelled as
`none`). -/
def pyGet {α : Type} (l : List α) (i : Int) : Option α :=
  if 0 ≤ i then l[i.toNat]?
  else if (l.length : Int) + i < 0 then none
  else l[((l.length : Int) + i).toNat]?

/-- Embeds the result-filtering step of
`OnlineRetrieval.retrieve_initial_candidates` (`core/online_retrieval.py`,
lines 128-133).  `searchResults` is the raw FAISS output
`zip(indices[0], distances[0])`; the code keeps a pair whenever
`idx < len(self.chunks_metadata)` (the comment there reads "Valid index"),
with no lower-bound check. -/
def retrieve_initial_candidates (chunks_metadata : List ChunkMeta)
    (searchResults : List (Int × ℚ)) : List (Int × ℚ) :=
  searchResults.filter (fun r => r.1 < (chunks_metadata.length : Int))

/-- The body of the scoring loop of `OnlineRetrieval.rerank_candidates`
(`core/online_retrieval.py`, lines 183-195) for one candidate: look the
chunk up in the metadata list and build the scored dictionary. -/
def scoreChunk (chunks_metadata : List ChunkMeta) (question : String)
    (cand : Int × ℚ) : Option ScoredChunk :=
  match pyGet chunks_metadata cand.1 with
  | none => none
  | some m =>
    let vector_similarity : ℚ := 1 / (1 + cand.2)
    let keyword_score := calculate_keyword_overlap question m.chunk_text
    let final_score := 7/10 * vector_similarity + 3/10 * keyword_score
    some ⟨cand.1, m, final_score, vector_similarity, keyword_score⟩

/-- The scoring loop of `OnlineRetrieval.rerank_candidates`
(`core/online_retrieval.py`, lines 181-205): score every candidate in order,
keeping those with score at least `RERANK_MIN_SCORE`; a failed metadata
lookup raises (the whole call yields `none`). -/
def scoreLoop (chunks_metadata : List ChunkMeta) (question : String) :
    List (Int × ℚ) → Option (List ScoredChunk)
  | [] => some []
  | cand :: rest =>
    match scoreChunk chunks_metadata question cand with
    | none => none
    | some sc =>
      match scoreLoop chunks_metadata question rest with
      | none => none
      | some tail =>
        some (if RERANK_MIN_SCORE ≤ sc.score then sc :: tail else tail)

/-- Comparison used to sort scored chunks by descending score
(`scored_chunks.sort(key=lambda x: x['score'], reverse=True)`,
`core/online_retrieval.py`, line 208). -/
def scoreGE (a b : ScoredChunk) : Prop := b.score ≤ a.score

instance : DecidableRel scoreGE :=
  fun a b => inferInstanceAs (Decidable (b.score ≤ a.score))

instance : IsTotal ScoredChunk scoreGE :=
  ⟨fun a b => (le_total b.score a.score)⟩

instance : IsTrans ScoredChunk scoreGE :=
  ⟨fun _ _ _ hab hbc => le_trans hbc hab⟩

/-- Embeds `OnlineRetrieval.rerank_candidates`
(`core/online_retrieval.py`, lines 164-211): hybrid-score the candidates,
drop those below the threshold, sort by descending score, return the first
`top_k`. -/
def rerank_candidates (chunks_metadata : List ChunkMeta) (question : String)
    (candidates : List (Int × ℚ)) (top_k : Nat) :
    Option (List ScoredChunk) :=
  match scoreLoop chunks_metadata question candidates with
  | none => none
  | some scored => some ((List.insertionSort scoreGE scored).take top_k)

/-- The loop of `OnlineRetrieval.construct_context`
(`core/online_retrieval.py`, lines 228-241): running token total, running
passage number, `break` at the first chunk whose `token_count` would push the
total over the budget. -/
def ctxLoop (max_tokens : Nat) : Nat → Nat → List ScoredChunk → List String
  | _, _, [] => []
  | total, i, c :: rest =>
    if max_tokens < total + c.metadata.token_count then []
    else ("[Passage " ++ toString (i + 1) ++ "]\n" ++ c.metadata.chunk_text) ::
      ctxLoop max_tokens (total + c.metadata.token_count) (i + 1) rest

/-- Embeds `OnlineRetrieval.construct_context`
(`core/online_retrieval.py`, lines 213-246). -/
def construct_context (ranked_chunks : List ScoredChunk)
    (max_tokens : Nat) : String :=
  String.intercalate "\n\n" (ctxLoop max_tokens 0 0 ranked_chunks)

/-- The chunks actually included by `construct_context`'s loop (its parts
list without the passage headers). -/
def includeLoop (max_tokens : Nat) : Nat → List ScoredChunk → List ScoredChunk
  | _, [] => []
  | total, c :: rest =>
    if max_tokens < total + c.metadata.token_count then []
    else c :: includeLoop max_tokens (total + c.metadata.token_count) rest

/-- Render a list of included chunks as numbered passages, starting at a
given passage index. -/
def renderFrom (i : Nat) : List ScoredChunk → List String
  | [] => []
  | c :: rest =>
    ("[Passage " ++ toString (i + 1) ++ "]\n" ++ c.metadata.chunk_text) ::
      renderFrom (i + 1) rest

/-- Total of the cached `token_count` fields of a chunk list — the quantity
`construct_context` budgets against. -/
def sumTokens (l : List ScoredChunk) : Nat :=
  (l.map (fun c => c.metadata.token_count)).sum

/-- Embeds `OnlineRetrieval.retrieve` (`core/online_retrieval.py`,
lines 248-308), with the FAISS search output for the preprocessed question
passed in as `searchResults`.  A `none` result models an uncaught exception
inside the pipeline. -/
def retrieve (chunks_metadata : List ChunkMeta)
    (searchResults : List (Int × ℚ)) (question : String) :
    Option RetrieveResult :=
  match rerank_candidates chunks_metadata (preprocess_question question)
      (retrieve_initial_candidates chunks_metadata searchResults) RERANK_TOP_K with
  | none => none
  | some [] => some ⟨"", 0⟩
  | some ranked =>
    some ⟨construct_context ranked MAX_CONTEXT_TOKENS, ranked.length⟩

/-- Text of `SYSTEM_PROMPT_TEMPLATE` before the `context` placeholder
(`core/rag_config.py`, lines 60-76). -/
def promptHead : String :=
  "You are a helpful assistant that answers questions ONLY using the provided context.\n\nRULES:\n1. Only use information from the context below\n2. If the answer is not in the context, respond: \"I don\x27t have enough information to answer this question.\"\n3. Do not use external knowledge or make assumptions\n4. Keep answers concise and factual\n5. Quote relevant parts of the context when appropriate\n6. **FORMATTING**: Use Markdown for headers, lists, and bold text. Do NOT use HTML tags.\n\nCONTEXT:\n"

/-- Text of `SYSTEM_PROMPT_TEMPLATE` between the two placeholders. -/
def promptMid : String := "\n\nQUESTION:\n"

/-- Text of `SYSTEM_PROMPT_TEMPLATE` after the `question` placeholder. -/
def promptTail : String := "\n\nANSWER:"

/-- Embeds `RAGGeneration.create_prompt` (`core/rag_generation.py`,
lines 62-79): `SYSTEM_PROMPT_TEMPLATE.format(context=..., question=...)`. -/
def create_prompt (question context : String) : String :=
  promptHead ++ context ++ promptMid ++ question ++ promptTail

/-- Embeds `RAGGeneration.generate_answer` (`core/rag_generation.py`,
lines 81-137), with the LLM call abstracted as `llm`.  The guard
`not context or context.strip() == ""` is equivalent to the stripped
context being empty. -/
def generate_answer (llm : String → String) (question context : String) :
    GenResult :=
  if pyStripList context.toList = [] then ⟨NO_CONTEXT_RESPONSE, false⟩
  else ⟨pyStrip (llm (create_prompt question context)), true⟩

/-- One metadata entry as built in `OfflineIngestion.ingest_document`
(`core/offline_ingestion.py`, lines 228-236). -/
def mkChunkMeta (tok : Tokenizer) (document_id : String) (i : Nat)
    (chunk : String) : ChunkMeta :=
  ⟨document_id, i, chunk, (tok.encode chunk).length, chunk.length⟩

/-- Embeds `OfflineIngestion.ingest_document` (`core/offline_ingestion.py`,
lines 185-243): clean, chunk, embed each chunk (embedding abstracted as
`embed`), append the embeddings to the index and one metadata entry per
chunk, in order.  Document loading is abstracted: `raw_text` is the loaded
document text. -/
def ingest_document {E : Type} (tok : Tokenizer) (embed : String → E)
    (st : IngestState E) (raw_text document_id : String) :
    Option (IngestState E) :=
  match chunk_by_tokens tok (clean_text raw_text) DEFAULT_CHUNK_SIZE CHUNK_OVERLAP with
  | none => none
  | some chunks =>
    some ⟨st.index ++ chunks.map embed,
          st.chunks_metadata ++
            chunks.enum.map (fun ia => mkChunkMeta tok document_id ia.1 ia.2)⟩

/-! Concrete instances used by witnesses and counterexamples. -/

/-- A concrete tokenizer in which every character is one token and every
token decodes to one character. -/
def demoTok : Tokenizer :=
  ⟨fun s => List.replicate s.length 0, fun l => String.mk (List.replicate l.length 'a')⟩

/-- A 60-character document. -/
def aaa60 : String := String.mk (List.replicate 60 'a')

/-- A document of exactly `DEFAULT_CHUNK_SIZE` tokens under `demoTok`. -/
def text600 : String := String.mk (List.replicate 600 'a')

/-- A document of `DEFAULT_CHUNK_SIZE + 1` tokens under `demoTok`. -/
def text601 : String := String.mk (List.replicate 601 'a')

/-- A concrete tokenizer in which a token decodes to 64 characters while 64
characters encode to a single token (the cl100k vocabulary contains such
long tokens, e.g. runs of punctuation). -/
def tokLong : Tokenizer :=
  ⟨fun s => List.replicate (s.length / 64) 0,
   fun l => String.mk (List.replicate (64 * l.length) 'x')⟩

/-- A 64-character document: one `tokLong` token. -/
def x64 : String := String.mk (List.replicate 64 'x')

/-- The ingestion state obtained by ingesting `aaa60` into an empty state
with `demoTok`, embedding a chunk as its length. -/
def demoIngested : IngestState Nat :=
  (ingest_document demoTok String.length ⟨[], []⟩ aaa60 "doc").getD ⟨[], []⟩

/-- A one-entry metadata list for retrieval demos. -/
def demoMeta : List ChunkMeta := [⟨"doc", 0, "qq", 1, 2⟩]

/-- A one-chunk ranked list for context-construction demos. -/
def demoRanked : List ScoredChunk := [⟨0, ⟨"d", 0, "hello", 5, 5⟩, 1, 1, 0⟩]

/-- The re-ranked list obtained from `demoMeta` on a concrete query. -/
def demoReranked : List ScoredChunk :=
  (rerank_candidates demoMeta "qq?" [((0 : Int), (0 : ℚ))] RERANK_TOP_K).getD []

end RupayRag

/-! Helper lemmas shared by the claim theorems. -/

namespace RupayRag

/-- Unfolding lemma for `sumTokens`. -/
theorem sumTokens_cons (c : ScoredChunk) (l : List ScoredChunk) :
    sumTokens (c :: l) = c.metadata.token_count + sumTokens l := by
  simp [sumTokens]

/-- The context loop renders exactly the chunks selected by `includeLoop`,
numbering passages from the running index. -/
theorem ctxLoop_eq_renderFrom (max_tokens : Nat) :
    ∀ (l : List ScoredChunk) (total i : Nat),
      ctxLoop max_tokens total i l =
        renderFrom i (includeLoop max_tokens total l) := by
  intro l
  induction l with
  | nil => intro total i; rfl
  | cons c rest ih =>
    intro total i
    by_cases h : max_tokens < total + c.metadata.token_count
    · simp [ctxLoop, includeLoop, h, renderFrom]
    · simp [ctxLoop, includeLoop, h, renderFrom, ih]

/-- The greedy selection never exceeds the remaining budget. -/
theorem includeLoop_budget (max_tokens : Nat) :
    ∀ (l : List ScoredChunk) (total : Nat), total ≤ max_tokens →
      total + sumTokens (includeLoop max_tokens total l) ≤ max_tokens := by
  intro l
  induction l with
  | nil => intro total h; simpa [includeLoop, sumTokens] using h
  | cons c rest ih =>
    intro total h
    by_cases ho : max_tokens < total + c.metadata.token_count
    · simpa [includeLoop, ho, sumTokens] using h
    · have h2 := ih (total + c.metadata.token_count) (Nat.not_lt.mp ho)
      simp only [includeLoop, if_neg ho, sumTokens_cons]
      omega

/-- The greedy selection is a prefix of the input, and when it stops early
the very next chunk would overflow the budget. -/
theorem includeLoop_split (max_tokens : Nat) :
    ∀ (l : List ScoredChunk) (total : Nat),
      ∃ rest, l = includeLoop max_tokens total l ++ rest ∧
        ∀ c rest2, rest = c :: rest2 →
          max_tokens < total + sumTokens (includeLoop max_tokens total l) +
            c.metadata.token_count := by
  intro l
  induction l with
  | nil =>
    intro total
    exact ⟨[], rfl, by intro c r2 h; cases h⟩
  | cons c rest ih =>
    intro total
    by_cases ho : max_tokens < total + c.metadata.token_count
    · refine ⟨c :: rest, by simp [includeLoop, ho], ?_⟩
      intro c' r2 h
      injection h with h1 h2
      subst h1
      simp only [includeLoop, if_pos ho, sumTokens]
      simpa using ho
    · obtain ⟨r, hr, hp⟩ := ih (total + c.metadata.token_count)
      refine ⟨r, by simp only [includeLoop, if_neg ho]; exact congrArg (c :: ·) hr, ?_⟩
      intro c' r2 h
      have := hp c' r2 h
      simp only [includeLoop, if_neg ho, sumTokens_cons]
      omega

/-- With a zero stride the chunking loop makes no progress: it completes
within no iteration bound. -/
theorem chunkLoop_no_progress (d : List Nat → String) (tokens : List Nat)
    (size ov : Nat) (hs : size - ov = 0) :
    ∀ (fuel start : Nat), start < tokens.length →
      chunkLoop d tokens size ov fuel start = none := by
  intro fuel
  induction fuel with
  | zero => intro start h; simp [chunkLoop, h]
  | succ n ih =>
    intro start h
    simp only [chunkLoop, if_pos h, hs, Nat.add_zero]
    rw [ih start h]

/-- The chunking loop completes whenever the iteration bound covers the
remaining tokens at the loop's stride. -/
theorem chunkLoop_isSome (d : List Nat → String) (tokens : List Nat)
    (size ov : Nat) :
    ∀ (fuel start : Nat), tokens.length ≤ start + fuel * (size - ov) →
      (chunkLoop d tokens size ov fuel start).isSome = true := by
  intro fuel
  induction fuel with
  | zero =>
    intro start h
    have : ¬ start < tokens.length := by omega
    simp [chunkLoop, this]
  | succ n ih =>
    intro start h
    by_cases hl : start < tokens.length
    · rw [Nat.succ_mul] at h
      have h2 : tokens.length ≤ (start + (size - ov)) + n * (size - ov) := by omega
      simp only [chunkLoop, if_pos hl]
      cases hre : chunkLoop d tokens size ov n (start + (size - ov)) with
      | none =>
        have := ih (start + (size - ov)) h2
        rw [hre] at this
        simp at this
      | some rest => simp
    · simp [chunkLoop, hl]

/-- Once the position passes the end of the tokens the loop exits at any
iteration bound. -/
theorem chunkLoop_exit (d : List Nat → String) (tokens : List Nat)
    (size ov : Nat) (start : Nat) (h : tokens.length ≤ start) :
    ∀ fuel, chunkLoop d tokens size ov fuel start = some [] := by
  intro fuel
  cases fuel with
  | zero => simp [chunkLoop, Nat.not_lt.mpr h]
  | succ n => simp [chunkLoop, Nat.not_lt.mpr h]

/-- One unfolding step of the chunking loop while inside the tokens. -/
theorem chunkLoop_step (d : List Nat → String) (tokens : List Nat)
    (size ov : Nat) (fuel start : Nat) (hl : start < tokens.length) :
    chunkLoop d tokens size ov (fuel + 1) start =
      match chunkLoop d tokens size ov fuel (start + (size - ov)) with
      | none => none
      | some rest =>
        some (if MIN_CHUNK_LENGTH ≤ (d ((tokens.drop start).take size)).length
              then d ((tokens.drop start).take size) :: rest else rest) := by
  simp [chunkLoop, hl]

/-- Under the default window of 600 tokens with stride 510, a token list of
length 560 to 1020 yields exactly the full window and the tail window,
provided every token decodes to at least one character. -/
theorem chunkLoop_default_two (d : List Nat → String) (tokens : List Nat)
    (hd : ∀ l : List Nat, l.length ≤ (d l).length)
    (h1 : 560 ≤ tokens.length) (h2 : tokens.length ≤ 1020) :
    chunkLoop d tokens 600 90 (tokens.length + 1) 0 =
      some [d (tokens.take 600), d ((tokens.drop 510).take 600)] := by
  obtain ⟨n, hn⟩ : ∃ n, tokens.length + 1 = n + 2 := ⟨tokens.length - 1, by omega⟩
  have c1len : MIN_CHUNK_LENGTH ≤ (d ((tokens.drop 0).take 600)).length := by
    have ha := hd ((tokens.drop 0).take 600)
    have hlen : ((tokens.drop 0).take 600).length = min 600 (tokens.length - 0) := by
      simp [List.length_take, List.length_drop]
    simp only [MIN_CHUNK_LENGTH]
    omega
  have c2len : MIN_CHUNK_LENGTH ≤ (d ((tokens.drop 510).take 600)).length := by
    have ha := hd ((tokens.drop 510).take 600)
    have hlen : ((tokens.drop 510).take 600).length = min 600 (tokens.length - 510) := by
      simp [List.length_take, List.length_drop]
    simp only [MIN_CHUNK_LENGTH]
    omega
  have e1 : chunkLoop d tokens 600 90 n 1020 = some [] :=
    chunkLoop_exit d tokens 600 90 1020 (by omega) n
  rw [hn]
  rw [chunkLoop_step d tokens 600 90 (n + 1) 0 (by omega)]
  rw [show (0 + (600 - 90)) = 510 from by norm_num]
  rw [chunkLoop_step d tokens 600 90 n 510 (by omega)]
  rw [show (510 + (600 - 90)) = 1020 from by norm_num]
  rw [e1]
  rw [List.drop_zero] at c1len
  simp [c1len, c2len]

/-- Every chunk kept by the chunking loop has at least `MIN_CHUNK_LENGTH`
characters. -/
theorem chunkLoop_min_length (d : List Nat → String) (tokens : List Nat)
    (size ov : Nat) :
    ∀ (fuel start : Nat) (chunks : List String),
      chunkLoop d tokens size ov fuel start = some chunks →
      ∀ c ∈ chunks, MIN_CHUNK_LENGTH ≤ c.length := by
  intro fuel
  induction fuel with
  | zero =>
    intro start chunks h c hc
    by_cases hl : start < tokens.length
    · simp [chunkLoop, hl] at h
    · simp [chunkLoop, hl] at h
      subst h
      cases hc
  | succ n ih =>
    intro start chunks h c hc
    by_cases hl : start < tokens.length
    · rw [chunkLoop_step d tokens size ov n start hl] at h
      cases hre : chunkLoop d tokens size ov n (start + (size - ov)) with
      | none => rw [hre] at h; simp at h
      | some rest =>
        rw [hre] at h
        simp only [Option.some.injEq] at h
        subst h
        by_cases hm : MIN_CHUNK_LENGTH ≤ (d ((tokens.drop start).take size)).length
        · rw [if_pos hm] at hc
          rcases List.mem_cons.mp hc with rfl | hc2
          · exact hm
          · exact ih (start + (size - ov)) rest hre c hc2
        · rw [if_neg hm] at hc
          exact ih (start + (size - ov)) rest hre c hc
    · simp [chunkLoop, hl] at h
      subst h
      cases hc

/-- The second component of an enumerated entry is an element of the list. -/
theorem enumFrom_snd_mem {α : Type} :
    ∀ (n : Nat) (l : List α) (x : Nat × α), x ∈ List.enumFrom n l → x.2 ∈ l := by
  intro n l
  induction l generalizing n with
  | nil => intro x hx; cases hx
  | cons a as ih =>
    intro x hx
    rcases List.mem_cons.mp hx with rfl | hx2
    · exact List.mem_cons_self _ _
    · exact List.mem_cons_of_mem _ (ih (n + 1) x hx2)

/-- Enumerating and projecting the values gives back the list. -/
theorem enumFrom_map_snd {α : Type} :
    ∀ (n : Nat) (l : List α), (List.enumFrom n l).map Prod.snd = l := by
  intro n l
  induction l generalizing n with
  | nil => rfl
  | cons a as ih => simp [List.enumFrom, ih]

end RupayRag

namespace RupayRag

/-- Every scored chunk produced by the scoring loop passed the threshold,
carries the hybrid score of its own components, and originates from a
successful metadata lookup of one of the candidates. -/
theorem scoreLoop_mem (chunks_metadata : List ChunkMeta) (question : String) :
    ∀ (candidates : List (Int × ℚ)) (scored : List ScoredChunk),
      scoreLoop chunks_metadata question candidates = some scored →
      ∀ s ∈ scored,
        RERANK_MIN_SCORE ≤ s.score ∧
        s.score = 7/10 * s.vector_similarity + 3/10 * s.keyword_score ∧
        s.keyword_score = calculate_keyword_overlap question s.metadata.chunk_text ∧
        pyGet chunks_metadata s.chunk_index = some s.metadata ∧
        ∃ d : ℚ, (s.chunk_index, d) ∈ candidates ∧
          s.vector_similarity = 1 / (1 + d) := by
  intro candidates
  induction candidates with
  | nil =>
    intro scored h s hs
    simp only [scoreLoop, Option.some.injEq] at h
    subst h
    cases hs
  | cons cand rest ih =>
    intro scored h s hs
    simp only [scoreLoop] at h
    cases hc : scoreChunk chunks_metadata question cand with
    | none => rw [hc] at h; simp at h
    | some sc =>
      rw [hc] at h
      cases ht : scoreLoop chunks_metadata question rest with
      | none => rw [ht] at h; simp at h
      | some tail =>
        rw [ht] at h
        simp only [Option.some.injEq] at h
        have hsc : sc.score = 7/10 * sc.vector_similarity + 3/10 * sc.keyword_score ∧
            sc.keyword_score = calculate_keyword_overlap question sc.metadata.chunk_text ∧
            pyGet chunks_metadata sc.chunk_index = some sc.metadata ∧
            sc.chunk_index = cand.1 ∧ sc.vector_similarity = 1 / (1 + cand.2) := by
          simp only [scoreChunk] at hc
          cases hg : pyGet chunks_metadata cand.1 with
          | none => rw [hg] at hc; simp at hc
          | some m =>
            rw [hg] at hc
            simp only [Option.some.injEq] at hc
            subst hc
            exact ⟨rfl, rfl, hg, rfl, rfl⟩
        have hmemtail : ∀ s ∈ tail,
            RERANK_MIN_SCORE ≤ s.score ∧
            s.score = 7/10 * s.vector_similarity + 3/10 * s.keyword_score ∧
            s.keyword_score = calculate_keyword_overlap question s.metadata.chunk_text ∧
            pyGet chunks_metadata s.chunk_index = some s.metadata ∧
            ∃ d : ℚ, (s.chunk_index, d) ∈ cand :: rest ∧
              s.vector_similarity = 1 / (1 + d) := by
          intro s2 hs2
          obtain ⟨a, b, c, dd, ⟨e, he1, he2⟩⟩ := ih tail ht s2 hs2
          exact ⟨a, b, c, dd, ⟨e, List.mem_cons_of_mem _ he1, he2⟩⟩
        by_cases hmin : RERANK_MIN_SCORE ≤ sc.score
        · rw [if_pos hmin] at h
          subst h
          rcases List.mem_cons.mp hs with rfl | hs2
          · refine ⟨hmin, hsc.1, hsc.2.1, hsc.2.2.1, ⟨cand.2, ?_, hsc.2.2.2.2⟩⟩
            rw [hsc.2.2.2.1, Prod.mk.eta]
            exact List.mem_cons_self _ _
          · exact hmemtail s hs2
        · rw [if_neg hmin] at h
          subst h
          exact hmemtail s hs

/-- Conversion between strings built from character lists and their
character lists. -/
theorem toList_mk (l : List Char) : (String.mk l).toList = l := rfl

/-- Every character left by a whitespace collapse that is whitespace is the
single space it was collapsed to. -/
theorem collapseAux_mem_space :
    ∀ (l : List Char) (b : Bool) (c : Char),
      c ∈ collapseAux b l → pySpace c = true → c = ' ' := by
  intro l
  induction l with
  | nil => intro b c hc; cases hc
  | cons d ds ih =>
    intro b c hc hsp
    by_cases hd : pySpace d
    · simp only [collapseAux, if_pos hd] at hc
      cases b with
      | true => exact ih true c hc hsp
      | false =>
        simp only [if_neg (by simp : ¬ (false = true))] at hc
        rcases List.mem_cons.mp hc with rfl | hc2
        · rfl
        · exact ih true c hc2 hsp
    · simp only [collapseAux, if_neg hd] at hc
      rcases List.mem_cons.mp hc with rfl | hc2
      · exact absurd hsp (by simpa using hd)
      · exact ih false c hc2 hsp

/-- After a whitespace run has emitted its space, the next emitted character
is not whitespace. -/
theorem collapseAux_true_head :
    ∀ (l : List Char) (c : Char),
      (collapseAux true l).head? = some c → pySpace c = false := by
  intro l
  induction l with
  | nil => intro c h; simp [collapseAux] at h
  | cons d ds ih =>
    intro c h
    by_cases hd : pySpace d
    · simp only [collapseAux, if_pos hd, if_pos rfl] at h
      exact ih c h
    · simp only [collapseAux, if_neg hd, List.head?_cons, Option.some.injEq] at h
      subst h
      simpa using hd

/-- A whitespace collapse never leaves two adjacent whitespace characters. -/
theorem collapseAux_chain :
    ∀ (l : List Char) (b : Bool),
      List.Chain' (fun a c => ¬(pySpace a = true ∧ pySpace c = true))
        (collapseAux b l) := by
  intro l
  induction l with
  | nil => intro b; simp [collapseAux]
  | cons d ds ih =>
    intro b
    by_cases hd : pySpace d
    · simp only [collapseAux, if_pos hd]
      cases b with
      | true => simpa using ih true
      | false =>
        simp only [if_neg (by simp : ¬ (false = true))]
        refine List.chain'_cons'.mpr ⟨?_, ih true⟩
        intro y hy
        have := collapseAux_true_head ds y hy
        simp [this]
    · simp only [collapseAux, if_neg hd]
      refine List.chain'_cons'.mpr ⟨?_, ih false⟩
      intro y hy
      simp [hd]

/-- The head left by `dropWhile` does not satisfy the predicate. -/
theorem dropWhile_head_not {α : Type} (p : α → Bool) :
    ∀ (l : List α) (c : α), (l.dropWhile p).head? = some c → p c = false := by
  intro l
  induction l with
  | nil => intro c h; simp at h
  | cons d ds ih =>
    intro c h
    by_cases hd : p d
    · rw [List.dropWhile_cons, if_pos hd] at h
      exact ih c h
    · rw [List.dropWhile_cons, if_neg hd] at h
      simp only [List.head?_cons, Option.some.injEq] at h
      subst h
      simpa using hd

/-- Stripping keeps only characters of the original list. -/
theorem pyStripList_subset (l : List Char) : pyStripList l ⊆ l := by
  intro c hc
  unfold pyStripList at hc
  rw [List.mem_reverse] at hc
  have h2 := (List.dropWhile_suffix pySpace).sublist.subset hc
  rw [List.mem_reverse] at h2
  exact (List.dropWhile_suffix pySpace).sublist.subset h2

/-- Stripping preserves any symmetric adjacency invariant. -/
theorem pyStripList_chain (R : Char → Char → Prop)
    (hsymm : ∀ a b, R a b → R b a) (l : List Char)
    (h : List.Chain' R l) : List.Chain' R (pyStripList l) := by
  unfold pyStripList
  have h1 : List.Chain' R (l.dropWhile pySpace) :=
    h.suffix (List.dropWhile_suffix pySpace)
  have h2 : List.Chain' R (l.dropWhile pySpace).reverse := by
    rw [List.chain'_reverse]
    exact h1.imp (fun a b hab => hsymm a b hab)
  have h3 : List.Chain' R ((l.dropWhile pySpace).reverse.dropWhile pySpace) :=
    h2.suffix (List.dropWhile_suffix pySpace)
  rw [List.chain'_reverse]
  exact h3.imp (fun a b hab => hsymm a b hab)

/-- A stripped list never starts with whitespace. -/
theorem pyStripList_head (l : List Char) :
    ∀ c, (pyStripList l).head? = some c → pySpace c = false := by
  intro c hc
  obtain ⟨pre, hpre⟩ :=
    List.dropWhile_suffix (l := (l.dropWhile pySpace).reverse) pySpace
  have heq : l.dropWhile pySpace = pyStripList l ++ pre.reverse := by
    have h4 := congrArg List.reverse hpre
    simpa [pyStripList, List.reverse_append] using h4.symm
  have hhead : (l.dropWhile pySpace).head? = some c := by
    rw [heq]
    cases hp : pyStripList l with
    | nil => rw [hp] at hc; simp at hc
    | cons a as =>
      rw [hp] at hc
      simp only [List.head?_cons, Option.some.injEq] at hc
      subst hc
      simp
  exact dropWhile_head_not pySpace l c hhead

end RupayRag

/-! Claim theorems. -/

namespace RupayRag

/-- C1: for every list of ranked chunks and every token budget,
`construct_context` renders exactly the greedy prefix selected by
`includeLoop`; the cumulative cached token count of the included chunks
never exceeds `max_tokens`; the included chunks are a prefix of the ranked
list, appended in rank order; and iteration stops at the first chunk whose
addition would push the cumulative token count over the budget, with no
later chunk considered. -/
theorem construct_context_spec (ranked_chunks : List ScoredChunk)
    (max_tokens : Nat) :
    construct_context ranked_chunks max_tokens =
      String.intercalate "\n\n"
        (renderFrom 0 (includeLoop max_tokens 0 ranked_chunks)) ∧
    sumTokens (includeLoop max_tokens 0 ranked_chunks) ≤ max_tokens ∧
    ∃ rest, ranked_chunks = includeLoop max_tokens 0 ranked_chunks ++ rest ∧
      ∀ c rest2, rest = c :: rest2 →
        max_tokens < sumTokens (includeLoop max_tokens 0 ranked_chunks) +
          c.metadata.token_count := by
  refine ⟨?_, ?_, ?_⟩
  · unfold construct_context
    rw [ctxLoop_eq_renderFrom]
  · have := includeLoop_budget max_tokens ranked_chunks 0 (Nat.zero_le _)
    omega
  · simpa using includeLoop_split max_tokens ranked_chunks 0

/-- C1 witness: the budget bound of `construct_context_spec` evaluated on a
concrete one-chunk ranked list. -/
theorem construct_context_spec_witness :
    sumTokens (includeLoop MAX_CONTEXT_TOKENS 0 demoRanked) ≤ MAX_CONTEXT_TOKENS :=
  (construct_context_spec demoRanked MAX_CONTEXT_TOKENS).2.1

/-- C2: ingestion keeps the FAISS index and the metadata list synchronized:
if before the call every index position holds the embedding of the
corresponding metadata entry's chunk text, then after every successful
`ingest_document` call the number of vectors equals the length of the
metadata list and vector `i` is the embedding of metadata entry `i`. -/
theorem ingest_document_sync {E : Type} (tok : Tokenizer) (embed : String → E)
    (st : IngestState E) (raw doc : String) (st' : IngestState E)
    (hpre : st.index = st.chunks_metadata.map (fun m => embed m.chunk_text))
    (h : ingest_document tok embed st raw doc = some st') :
    st'.index.length = st'.chunks_metadata.length ∧
    ∀ i : Nat, st'.index[i]? =
      (st'.chunks_metadata[i]?).map (fun m => embed m.chunk_text) := by
  have key : st'.index = st'.chunks_metadata.map (fun m => embed m.chunk_text) := by
    unfold ingest_document at h
    cases hc : chunk_by_tokens tok (clean_text raw) DEFAULT_CHUNK_SIZE CHUNK_OVERLAP with
    | none => rw [hc] at h; simp at h
    | some chunks =>
      rw [hc] at h
      simp only [Option.some.injEq] at h
      subst h
      simp only [List.map_append, List.map_map]
      rw [hpre]
      congr 1
      have : chunks.map embed = ((List.enumFrom 0 chunks).map Prod.snd).map embed := by
        rw [enumFrom_map_snd]
      rw [this, List.map_map]
      rfl
  constructor
  · rw [key, List.length_map]
  · intro i
    rw [key, List.getElem?_map]

/-- C2 witness: `ingest_document_sync` applied to the empty initial state
and a concrete 60-character document. -/
theorem ingest_document_sync_witness :
    demoIngested.index.length = demoIngested.chunks_metadata.length :=
  (ingest_document_sync demoTok String.length ⟨[], []⟩ aaa60 "doc" demoIngested
    rfl rfl).1

set_option maxRecDepth 4000 in
/-- C3 counterexample: under the default configuration (chunk size 600,
overlap 90), a text of exactly 600 tokens produces 2 chunks, not 1: after
the full window the loop re-enters at position 510 < 600 and emits a
redundant 90-token tail chunk. -/
theorem chunk_exact_size_cex :
    (chunk_by_tokens demoTok text600 DEFAULT_CHUNK_SIZE CHUNK_OVERLAP).map
      List.length = some 2 ∧
    (some 2 : Option Nat) ≠ some 1 := by decide

/-- C3 (amended): under the default configuration, for every tokenizer whose
tokens decode to at least one character each, a text of exactly
`DEFAULT_CHUNK_SIZE` tokens produces 2 chunks (the full window plus the
redundant 90-token overlap tail kept by the `while start < len(tokens)`
condition), and a text of `DEFAULT_CHUNK_SIZE + 1` tokens also produces 2
chunks. -/
theorem chunk_default_counts (tok : Tokenizer) (t600 t601 : String)
    (htok : ∀ l : List Nat, l.length ≤ (tok.decode l).length)
    (h600 : (tok.encode t600).length = 600)
    (h601 : (tok.encode t601).length = 601) :
    (chunk_by_tokens tok t600 DEFAULT_CHUNK_SIZE CHUNK_OVERLAP).map
      List.length = some 2 ∧
    (chunk_by_tokens tok t601 DEFAULT_CHUNK_SIZE CHUNK_OVERLAP).map
      List.length = some 2 := by
  have e1 : DEFAULT_CHUNK_SIZE = 600 := rfl
  have e2 : CHUNK_OVERLAP = 90 := rfl
  constructor
  · unfold chunk_by_tokens
    rw [e1, e2, chunkLoop_default_two tok.decode (tok.encode t600) htok
      (by omega) (by omega)]
    rfl
  · unfold chunk_by_tokens
    rw [e1, e2, chunkLoop_default_two tok.decode (tok.encode t601) htok
      (by omega) (by omega)]
    rfl

set_option maxRecDepth 4000 in
/-- C3 witness: `chunk_default_counts` applied to the one-character-per-token
tokenizer and concrete 600- and 601-token texts. -/
theorem chunk_default_counts_witness :
    (chunk_by_tokens demoTok text600 DEFAULT_CHUNK_SIZE CHUNK_OVERLAP).map
      List.length = some 2 ∧
    (chunk_by_tokens demoTok text601 DEFAULT_CHUNK_SIZE CHUNK_OVERLAP).map
      List.length = some 2 :=
  chunk_default_counts demoTok text600 text601
    (by
      intro l
      show l.length ≤ (List.replicate l.length 'a').length
      simp)
    (by decide) (by decide)

/-- C4: the validity filter of `retrieve_initial_candidates` checks only the
upper bound `idx < len(chunks_metadata)`: the FAISS padding label `-1`,
returned whenever the index holds fewer than `k` vectors, passes the filter,
so a returned position can be negative and is not safe for metadata
lookup — refuting the claimed bound `0 ≤ position`. -/
theorem initial_candidates_negative_position :
    ((-1 : Int), (0 : ℚ)) ∈
      retrieve_initial_candidates ([] : List ChunkMeta) [((-1 : Int), (0 : ℚ))]
    ∧ (-1 : Int) < 0 := by decide

/-- C5: every chunk returned by a successful `rerank_candidates` call has
combined score `0.7 * (1 / (1 + distance)) + 0.3 * keywordOverlap` at least
`RERANK_MIN_SCORE`, where the distance is that of a candidate with the
chunk's index and the overlap is the keyword overlap of the question with
the chunk's text; candidates scoring below the threshold never appear; the
output is sorted in descending order of combined score and contains at most
`RERANK_TOP_K` (5) chunks. -/
theorem rerank_candidates_spec (chunks_metadata : List ChunkMeta)
    (question : String) (candidates : List (Int × ℚ)) (out : List ScoredChunk)
    (h : rerank_candidates chunks_metadata question candidates RERANK_TOP_K =
      some out) :
    (∀ s ∈ out,
      RERANK_MIN_SCORE ≤ s.score ∧
      s.score = 7/10 * s.vector_similarity + 3/10 * s.keyword_score ∧
      s.keyword_score = calculate_keyword_overlap question s.metadata.chunk_text ∧
      pyGet chunks_metadata s.chunk_index = some s.metadata ∧
      ∃ d : ℚ, (s.chunk_index, d) ∈ candidates ∧
        s.vector_similarity = 1 / (1 + d)) ∧
    List.Sorted scoreGE out ∧
    out.length ≤ RERANK_TOP_K := by
  unfold rerank_candidates at h
  cases hs : scoreLoop chunks_metadata question candidates with
  | none => rw [hs] at h; simp at h
  | some scored =>
    rw [hs] at h
    simp only [Option.some.injEq] at h
    subst h
    refine ⟨?_, ?_, ?_⟩
    · intro s hmem
      have h1 : s ∈ List.insertionSort scoreGE scored :=
        (List.take_sublist _ _).subset hmem
      have h2 : s ∈ scored := (List.perm_insertionSort scoreGE scored).subset h1
      exact scoreLoop_mem chunks_metadata question candidates scored hs s h2
    · exact (List.sorted_insertionSort scoreGE scored).sublist
        (List.take_sublist _ _)
    · exact List.length_take_le _ _

/-- C5 witness: the size bound of `rerank_candidates_spec` on a concrete
metadata list and candidate list. -/
theorem rerank_candidates_spec_witness :
    demoReranked.length ≤ RERANK_TOP_K :=
  (rerank_candidates_spec demoMeta "qq?" [((0 : Int), (0 : ℚ))] demoReranked
    rfl).2.2

end RupayRag

namespace RupayRag

set_option maxRecDepth 4000 in
/-- C6 counterexample: the chunking filter is on characters, not tokens: with
a tokenizer in which one token decodes to 64 characters (such tokens exist
in the cl100k vocabulary), ingestion stores a chunk whose `token_count` is
1, far below the threshold `MIN_CHUNK_LENGTH` = 50 — refuting the claimed
invariant `token_count ≥ MIN_CHUNK_LENGTH`. -/
theorem token_count_threshold_cex :
    (ingest_document tokLong (fun _ => (0 : Nat)) ⟨[], []⟩ x64 "doc").isSome = true ∧
    ((ingest_document tokLong (fun _ => (0 : Nat)) ⟨[], []⟩ x64 "doc").getD
      ⟨[], []⟩).chunks_metadata.map ChunkMeta.token_count = [1] ∧
    (1 : Nat) < MIN_CHUNK_LENGTH := by decide

/-- C6 (amended): every chunk stored in the metadata list during ingestion
has `char_count` (character count, not `token_count`) at least the
configured minimum length threshold `MIN_CHUNK_LENGTH`; chunks whose decoded
text is shorter are silently dropped by the chunking step and never reach
the index or metadata. -/
theorem ingest_min_char_count {E : Type} (tok : Tokenizer) (embed : String → E)
    (st : IngestState E) (raw doc : String) (st' : IngestState E)
    (hpre : ∀ m ∈ st.chunks_metadata, MIN_CHUNK_LENGTH ≤ m.char_count)
    (h : ingest_document tok embed st raw doc = some st') :
    ∀ m ∈ st'.chunks_metadata, MIN_CHUNK_LENGTH ≤ m.char_count := by
  unfold ingest_document at h
  cases hc : chunk_by_tokens tok (clean_text raw) DEFAULT_CHUNK_SIZE CHUNK_OVERLAP with
  | none => rw [hc] at h; simp at h
  | some chunks =>
    rw [hc] at h
    simp only [Option.some.injEq] at h
    subst h
    intro m hm
    simp only [List.mem_append] at hm
    rcases hm with hm | hm
    · exact hpre m hm
    · obtain ⟨ia, hia, rfl⟩ := List.mem_map.mp hm
      have hsnd : ia.2 ∈ chunks := enumFrom_snd_mem 0 chunks ia hia
      unfold chunk_by_tokens at hc
      have := chunkLoop_min_length tok.decode (tok.encode (clean_text raw))
        DEFAULT_CHUNK_SIZE CHUNK_OVERLAP _ 0 chunks hc ia.2 hsnd
      simpa [mkChunkMeta] using this

/-- C6 witness: `ingest_min_char_count` applied to the empty initial state
and a concrete 60-character document. -/
theorem ingest_min_char_count_witness :
    MIN_CHUNK_LENGTH ≤ (mkChunkMeta demoTok "doc" 0 aaa60).char_count :=
  ingest_min_char_count demoTok String.length ⟨[], []⟩ aaa60 "doc" demoIngested
    (by intro m hm; cases hm) rfl (mkChunkMeta demoTok "doc" 0 aaa60) (by decide)

/-- C7: there is no configuration-time rejection of a non-positive stride:
with `overlap = chunkSize` (stride 0) the chunking loop never terminates on
a nonempty token list — it completes within no iteration bound, instead of
failing with a configuration error.  Under a strictly positive stride
(`overlap < chunkSize`) `chunk_by_tokens` terminates for every input. -/
theorem chunk_stride_behavior :
    (∀ fuel : Nat, chunkLoop demoTok.decode (List.replicate 601 0)
      DEFAULT_CHUNK_SIZE DEFAULT_CHUNK_SIZE fuel 0 = none) ∧
    (∀ (tok : Tokenizer) (text : String) (size ov : Nat), ov < size →
      (chunk_by_tokens tok text size ov).isSome = true) := by
  constructor
  · intro fuel
    exact chunkLoop_no_progress _ _ _ _ (by simp) fuel 0
      (by rw [List.length_replicate]; norm_num)
  · intro tok text size ov h
    unfold chunk_by_tokens
    apply chunkLoop_isSome
    have hs : 0 < size - ov := by omega
    have := Nat.le_mul_of_pos_right ((tok.encode text).length + 1) hs
    omega

/-- C7 witness: the termination half of `chunk_stride_behavior` evaluated at
the default (positive-stride) configuration on a concrete document. -/
theorem chunk_stride_behavior_witness :
    (chunk_by_tokens demoTok aaa60 DEFAULT_CHUNK_SIZE CHUNK_OVERLAP).isSome = true :=
  chunk_stride_behavior.2 demoTok aaa60 DEFAULT_CHUNK_SIZE CHUNK_OVERLAP (by decide)

/-- C8 counterexample: against an index with no ingested content, the FAISS
padding label `-1` passes the candidate filter (`-1 < 0` holds in Python)
and the metadata lookup `chunks_metadata[-1]` on the empty list raises
IndexError, so `retrieve` raises (modelled as `none`) instead of returning
`num_chunks = 0` with an empty context. -/
theorem retrieve_empty_index_cex :
    retrieve ([] : List ChunkMeta) [((-1 : Int), (0 : ℚ))] "what is rupay" = none ∧
    (none : Option RetrieveResult) ≠ some ⟨"", 0⟩ := by decide

/-- C8 (amended): whenever re-ranking succeeds and yields zero surviving
chunks, `retrieve` returns `num_chunks = 0` and an empty context string, and
`generate_answer` invoked with an empty or blank context returns the fixed
fallback answer, with the same result for every generation model (the model
is not consulted). -/
theorem retrieve_no_chunks_fallback (chunks_metadata : List ChunkMeta)
    (searchResults : List (Int × ℚ)) (question : String)
    (h : rerank_candidates chunks_metadata (preprocess_question question)
      (retrieve_initial_candidates chunks_metadata searchResults)
      RERANK_TOP_K = some []) :
    retrieve chunks_metadata searchResults question = some ⟨"", 0⟩ ∧
    ∀ (llm : String → String) (q ctx : String), pyStripList ctx.toList = [] →
      generate_answer llm q ctx = ⟨NO_CONTEXT_RESPONSE, false⟩ := by
  constructor
  · unfold retrieve
    rw [h]
  · intro llm q ctx hctx
    unfold generate_answer
    rw [if_pos hctx]

/-- C8 witness: `retrieve_no_chunks_fallback` on a concrete metadata list
with no surviving candidate. -/
theorem retrieve_no_chunks_fallback_witness :
    retrieve demoMeta [] "zz" = some ⟨"", 0⟩ :=
  (retrieve_no_chunks_fallback demoMeta [] "zz" rfl).1

/-- C9 counterexample: a whitespace-only question is preprocessed to the
empty string, which does not end with a question mark — refuting the claim
that the output ends with one for every input. -/
theorem preprocess_blank_cex :
    preprocess_question "   " = "" ∧
    (preprocess_question "   ").toList.getLast? = none := by decide

/-- C9 (amended): `preprocess_question` collapses whitespace runs to single
spaces (every whitespace character of the output is a space and no two
whitespace characters are adjacent), trims leading whitespace, and ends with
a question mark whenever its output is nonempty (which also rules out
trailing whitespace); a whitespace-only input yields the empty string. -/
theorem preprocess_question_spec (s : String) :
    (∀ c ∈ (preprocess_question s).toList, pySpace c = true → c = ' ') ∧
    List.Chain' (fun a b => ¬(pySpace a = true ∧ pySpace b = true))
      (preprocess_question s).toList ∧
    (∀ c, (preprocess_question s).toList.head? = some c → pySpace c = false) ∧
    ((preprocess_question s).toList ≠ [] →
      (preprocess_question s).toList.getLast? = some '?') := by
  have hmem : ∀ c ∈ pyStripList (collapseAux false s.toList),
      pySpace c = true → c = ' ' :=
    fun c hc hsp =>
      collapseAux_mem_space s.toList false c (pyStripList_subset _ hc) hsp
  have hch : List.Chain' (fun a b => ¬(pySpace a = true ∧ pySpace b = true))
      (pyStripList (collapseAux false s.toList)) :=
    pyStripList_chain _ (fun a b hab => by tauto) _ (collapseAux_chain s.toList false)
  have hhd := pyStripList_head (collapseAux false s.toList)
  simp only [preprocess_question]
  set t := pyStripList (collapseAux false s.toList) with ht
  by_cases h0 : t = []
  · rw [if_pos h0, toList_mk, h0]
    refine ⟨by simp, by simp, by simp, by simp⟩
  · rw [if_neg h0]
    by_cases hq : t.getLast? = some '?'
    · rw [if_pos hq, toList_mk]
      exact ⟨hmem, hch, hhd, fun _ => hq⟩
    · rw [if_neg hq, toList_mk]
      refine ⟨?_, ?_, ?_, ?_⟩
      · intro c hc hsp
        rcases List.mem_append.mp hc with hc2 | hc2
        · exact hmem c hc2 hsp
        · rcases List.mem_singleton.mp hc2 with rfl
          exact absurd hsp (by decide)
      · refine List.chain'_append.mpr ⟨hch, by simp, ?_⟩
        intro x hx y hy
        simp only [List.head?_cons, Option.mem_def, Option.some.injEq] at hy
        subst hy
        exact fun hcon => absurd hcon.2 (by decide)
      · intro c hc
        cases htc : t with
        | nil => exact absurd htc h0
        | cons a as =>
          rw [htc] at hc
          simp only [List.cons_append, List.head?_cons, Option.some.injEq] at hc
          subst hc
          apply hhd
          rw [htc]
          simp
      · intro _
        exact List.getLast?_concat t

/-- C9 witness: the question-mark guarantee of `preprocess_question_spec`
evaluated on a concrete question. -/
theorem preprocess_question_spec_witness :
    (preprocess_question "hi").toList.getLast? = some '?' :=
  (preprocess_question_spec "hi").2.2.2 (by decide)

/-- C10: `calculate_keyword_overlap` is symmetric: the Jaccard similarity of
the two stop-word-filtered word sets does not depend on argument order. -/
theorem keyword_overlap_comm (a b : String) :
    calculate_keyword_overlap a b = calculate_keyword_overlap b a := by
  unfold calculate_keyword_overlap
  rw [Finset.inter_comm, Finset.union_comm]
  exact if_congr or_comm rfl rfl

end RupayRag
